import Mathlib

/-!
Shallow embedding of `cg-ion-upgrade.py` (CloudGenix staged ION firmware
upgrade/downgrade script).  Pure string/list manipulation is translated
directly; the external CloudGenix API is modelled by explicit oracles
(per-step records of what each API call would return).  Python `None` is
`Option.none`, a Python function that can raise is `Except String _` with
the exception class name as the error payload, and the engine's Python
return value (`False` / implicit `None` / uncaught exception) is the
inductive `Res` below.
-/

namespace CgIonUpgrade

/-! ### Version parsing: `major_minor_micro` (source lines 133-135)

`re.search('(\d+)\.(\d+)\.(\d+)', version)` finds the leftmost position at
which one-or-more digits, a dot, one-or-more digits, a dot, one-or-more
digits match; the three digit groups are returned as ints.  The first two
`\d+` are forced to be the maximal digit run starting at the match position
(backtracking to a shorter run would leave a digit where the literal dot is
required); the third `\d+` is the maximal run (greedy, no constraint after).
A failed search means `.groups()` is called on `None`, i.e. the Python
function raises; we model that as `none`. -/

/-- Split a character list into its maximal leading digit run and the rest. -/
def digitsOf : List Char → List Char × List Char
  | [] => ([], [])
  | c :: t =>
    if c.isDigit then
      let (d, r) := digitsOf t
      (c :: d, r)
    else ([], c :: t)

/-- Numeric value of a decimal digit string (as captured by a regex group). -/
def natOfDigits (ds : List Char) : Nat :=
  ds.foldl (fun a c => 10 * a + (c.toNat - 48)) 0

/-- Attempt the pattern `(\d+)\.(\d+)\.(\d+)` anchored at the head of `cs`. -/
def matchAt (cs : List Char) : Option (Nat × Nat × Nat) :=
  let (d1, r1) := digitsOf cs
  if d1.isEmpty then none else
  match r1 with
  | '.' :: r2 =>
    let (d2, r3) := digitsOf r2
    if d2.isEmpty then none else
    match r3 with
    | '.' :: r4 =>
      let (d3, _) := digitsOf r4
      if d3.isEmpty then none
      else some (natOfDigits d1, natOfDigits d2, natOfDigits d3)
    | _ => none
  | _ => none

/-- `re.search` semantics: try the pattern at each position left to right. -/
def searchMMM : List Char → Option (Nat × Nat × Nat)
  | [] => none
  | c :: rest =>
    match matchAt (c :: rest) with
    | some t => some t
    | none => searchMMM rest

/-- `major_minor_micro(version)` (source lines 133-135); `none` models the
`AttributeError` raised when the regex search fails. -/
def major_minor_micro (version : String) : Option (Nat × Nat × Nat) :=
  searchMMM version.toList

/-! ### Python string containment (`specifier in key`) -/

/-- `l` occurs at the head of `h`. -/
def headMatch : List Char → List Char → Bool
  | [], _ => true
  | _ :: _, [] => false
  | a :: as_, b :: bs => a == b && headMatch as_ bs

/-- `needle` occurs contiguously somewhere in `hay` (Python `in`). -/
def substrOf (needle : List Char) : List Char → Bool
  | [] => needle.isEmpty
  | c :: t => headMatch needle (c :: t) || substrOf needle t

/-- Python `str(version) in image_version`. -/
def strIn (needle hay : String) : Bool :=
  substrOf needle.toList hay.toList

/-- `p` occurs at the start of `s` (the `re.match` semantics of the
source's `A\.B\..*` patterns). -/
def startsWithL (p s : String) : Bool :=
  headMatch p.toList s.toList

/-! ### Catalog model

`get_images_list` (source lines 145-154) builds an insertion-ordered dict
from decorated version string to the image record; the engine only ever
uses the record's `id` field, so the catalog is a `List (String × String)`
(version key, image id) with the dict's iteration order. -/

/-- `image_dict[k]` read as an optional lookup (first matching key). -/
def lookupD (dict : List (String × String)) (k : String) : Option String :=
  (dict.find? (fun kv => kv.1 == k)).map (·.2)

/-- `get_exact_major_minor_micro(version, image_dict)` (source lines
189-193): the first catalog key containing `version` as a substring. -/
def get_exact_major_minor_micro (version : String)
    (dict : List (String × String)) : Option String :=
  match dict with
  | [] => none
  | kv :: t =>
    if strIn version kv.1 then some kv.1
    else get_exact_major_minor_micro version t

/-- The engine's inline resolution loop (source lines 210-212 and 251-253):
`for version_num in image_dict.keys(): if max_version in version_num:
exact_version = version_num` — the accumulator is overwritten on every
match, so the LAST containing key survives. -/
def lastContaining (v : String) (dict : List (String × String)) :
    Option String :=
  dict.foldl (fun acc kv => if strIn v kv.1 then some kv.1 else acc) none

/-! ### `max(keys, key=major_minor_micro)` / `min(...)`
(source lines 204, 245, 294).  Python computes the key tuple of every
element in iteration order, raising on an unparsable element
(`AttributeError` from `major_minor_micro`) or an empty sequence
(`ValueError`), keeps the first element whose tuple is strictly greater
(resp. smaller) than the running best, and so returns the first
maximum/minimum among ties. -/

/-- Lexicographic strict order on parsed `(major, minor, micro)` tuples
(Python tuple `<`). -/
def tupLt (a b : Nat × Nat × Nat) : Bool :=
  a.1 < b.1 || (a.1 == b.1 && (a.2.1 < b.2.1 ||
    (a.2.1 == b.2.1 && a.2.2 < b.2.2)))

/-- `major_minor_micro` as a key function that raises on failure. -/
def mmmKey (k : String) : Except String (Nat × Nat × Nat) :=
  match major_minor_micro k with
  | some t => .ok t
  | none => .error "AttributeError"

/-- `max(keys, key=major_minor_micro)`. -/
def pyMaxKey (keys : List String) : Except String String :=
  match keys with
  | [] => .error "ValueError"
  | k :: rest => do
    let kt ← mmmKey k
    let best ← rest.foldlM
      (fun (acc : String × (Nat × Nat × Nat)) k2 => do
        let k2t ← mmmKey k2
        pure (if tupLt acc.2 k2t then (k2, k2t) else acc)) (k, kt)
    pure best.1

/-- `min(keys, key=major_minor_micro)`. -/
def pyMinKey (keys : List String) : Except String String :=
  match keys with
  | [] => .error "ValueError"
  | k :: rest => do
    let kt ← mmmKey k
    let best ← rest.foldlM
      (fun (acc : String × (Nat × Nat × Nat)) k2 => do
        let k2t ← mmmKey k2
        pure (if tupLt k2t acc.2 then (k2, k2t) else acc)) (k, kt)
    pure best.1

/-! ### Python truthiness for the strings the script tests with `if not x` -/

/-- Truthiness of an optional string (`None` and `""` are falsy). -/
def pyTruthyOS : Option String → Bool
  | none => false
  | some s => s ≠ ""

/-! ### `wait_for_upgade` (source lines 172-186)

The loop polls `get_element_sw_version` (modelled by `reads : Nat → Option
String`, the value returned by the i-th read), sleeps 10 seconds and
decrements `max_wait` by 10 per iteration while the read differs from the
target and `max_wait > 0`, then reports `True` iff the last read equals the
target.  The iteration count is a function of `max_wait` alone, namely
`ceil(max(max_wait,0) / 10)`, so the loop is embedded structurally on that
count, threading the remaining `max_wait` through unchanged. -/

/-- Number of loop iterations `wait_for_upgade` can perform for a budget
`w`: `ceil(max(w,0)/10)` (one poll happens before the loop as well). -/
def kMax (w : Int) : Nat := (w.toNat + 9) / 10

/-- The polling loop; `polls` is the exact remaining iteration count
(`kMax w`), `i` the index of the read currently in hand, `w` the remaining
budget.  Returns (reached?, remaining budget). -/
def waitGo (reads : Nat → Option String) (target : String) :
    Nat → Int → Nat → Bool × Int
  | i, w, 0 => (reads i == some target, w)
  | i, w, p + 1 =>
    if reads i == some target then (true, w)
    else waitGo reads target (i + 1) (w - 10) p

/-- `wait_for_upgade(sdk, target_version, element_id, max_wait)`:
returns whether the device reached `target` (exact string equality against
each read) and the remaining budget. -/
def wait_for_upgade (reads : Nat → Option String) (target : String)
    (maxWait : Int) : Bool × Int :=
  waitGo reads target 0 maxWait (kMax maxWait)

/-! ### `execute_upgrade` (source lines 157-169) -/

/-- A device software-state record: an insertion-ordered dict of string
fields (the script only touches `image_id`). -/
abbrev Rec := List (String × String)

/-- Python dict assignment `d[k] = v`: overwrite the first occurrence of
`k`, or append when absent. -/
def setField (r : Rec) (k v : String) : Rec :=
  match r with
  | [] => [(k, v)]
  | kv :: t => if kv.1 == k then (k, v) :: t else kv :: setField t k v

/-- What the API would answer to one `execute_upgrade` invocation:
the `get.software_state` payload (`none` = `cgx_status` false) and whether
`put.software_state` succeeds. -/
structure ApiStep where
  swRead : Option Rec
  putOk : Bool

/-- One line of console output; one constructor per `print` site of the
engine and of `execute_upgrade` (the `wait_for_upgade` progress prints are
not tracked). -/
inductive Msg where
  | maxStepsMsg
  | atMaxMsg
  | exactNotFoundMsg
  | stepMsg (step : Nat) (cur : Option String) (target : String)
      (exactMax : Option String)
  | errGetSwMsg
  | execFwMsg
  | errPutSwMsg
  | noNextMsg
  | completedMsg (finalVer : Option String)
  deriving DecidableEq, Repr

/-- `execute_upgrade(sdk, element_id, image_id)`: read the software-state
record, set its `image_id` field, write it back.  Returns (Python return
value, list of records written, prints).  The read failing short-circuits
before any write; the write is attempted exactly once. -/
def execute_upgrade (api : ApiStep) (image_id : String) :
    Bool × List Rec × List Msg :=
  match api.swRead with
  | none => (false, [], [.errGetSwMsg])
  | some r =>
    let r2 := setField r "image_id" image_id
    if api.putOk then (true, [r2], [.execFwMsg])
    else (false, [r2], [.execFwMsg, .errPutSwMsg])

/-! ### Path tables (source lines 44-58)

The tables are Python dicts from a regex string to the next-hop loose
specifier, consulted with `re.match` (anchored at the start).  Every
pattern in the source has the shape `A\.B\..*`, whose `re.match` semantics
is exactly "the string starts with `A.B.`"; an entry's pattern is therefore
embedded as its match predicate `String → Bool`. -/

/-- `upgrade_path_regex` (source lines 44-50). -/
def upgrade_path_regex : List ((String → Bool) × String) :=
  [ (fun s => startsWithL "4.5." s, "4.7.1"),
    (fun s => startsWithL "4.7." s, "5.0.3"),
    (fun s => startsWithL "5.0." s, "5.2.7"),
    (fun s => startsWithL "5.1." s, "5.2.7"),
    (fun s => startsWithL "5.2." s, "5.4.3") ]

/-- `downgrade_path_regex` (source lines 52-58). -/
def downgrade_path_regex : List ((String → Bool) × String) :=
  [ (fun s => startsWithL "4.7." s, "4.5.3"),
    (fun s => startsWithL "5.0." s, "4.7.1"),
    (fun s => startsWithL "5.1." s, "4.7.1"),
    (fun s => startsWithL "5.2." s, "5.0.3"),
    (fun s => startsWithL "5.4." s, "5.2.7") ]

/-- The raw specifier-selection part of the scan loop (source lines
219-222 / 260-263) in isolation: iterate over the table in order and
overwrite the accumulator whenever a pattern matches — no break, so a
later match overwrites an earlier one. -/
def nextHopScan (tbl : List ((String → Bool) × String)) (cur : String)
    (acc : Option String) : Option String :=
  match tbl with
  | [] => acc
  | e :: rest => nextHopScan rest cur (if e.1 cur then some e.2 else acc)

/-- The specifier the scan loop leaves in `upgrade_version`'s raw slot. -/
def nextHop (tbl : List ((String → Bool) × String)) (cur : String) :
    Option String :=
  nextHopScan tbl cur none

/-- The full scan loop of the engine (source lines 217-222 / 258-263):
for each matching entry it resolves the hop specifier against the catalog
(`get_exact_major_minor_micro`) and immediately subscripts the catalog
with the result (`image_dict[upgrade_version]['id']`).  When the
resolution yields `None` that subscript raises `KeyError`; `re.match`
against a `None` current version raises `TypeError`.  Returns the final
`(upgrade_version, upgrade_image_id)` pair. -/
def hopResolveGo (tbl : List ((String → Bool) × String))
    (cur : Option String) (dict : List (String × String))
    (acc : Option String × Option String) :
    Except String (Option String × Option String) :=
  match tbl with
  | [] => .ok acc
  | e :: rest =>
    match cur with
    | none => .error "TypeError"
    | some c =>
      if e.1 c then
        match get_exact_major_minor_micro e.2 dict with
        | none => .error "KeyError"
        | some uv =>
          match lookupD dict uv with
          | none => .error "KeyError"
          | some iid => hopResolveGo rest cur dict (some uv, some iid)
      else hopResolveGo rest cur dict acc

/-- Entry point of the scan loop with both accumulators `None`. -/
def hopResolve (tbl : List ((String → Bool) × String))
    (cur : Option String) (dict : List (String × String)) :
    Except String (Option String × Option String) :=
  hopResolveGo tbl cur dict (none, none)

/-! ### The staged engine (`staged_upgrade` lines 196-234,
`staged_downgrade` lines 237-275)

The two functions are identical except for the path table consulted, the
default target (`max` vs `min` of the catalog keys) and whether the
"Currently at max version specified" print is gated by `step == 1`; they
are embedded as one recursion parameterised by that triple.

`get_images_list` is modelled as succeeding with a fixed snapshot `dict`
(the same dict every step); `get_element_sw_version` at the top and at the
bottom of a step, the software-state read/write and the in-wait reads come
from a per-step oracle, indexed by the step number after the `step += 1`
at the top of the frame.

The Python recursion increments `step` each frame and aborts when
`step > max_steps`, so the quantity `max_steps - step` (natural
subtraction) decreases by exactly one per frame and is zero exactly when
the abort branch fires; the embedding recurses structurally on it. -/

/-- The Python return value of an engine call: `False`, the implicit
`None`, or an uncaught exception. -/
inductive Res where
  | retF
  | retN
  | exc (e : String)
  deriving DecidableEq, Repr

/-- Observable result of an engine call: Python return value, console
transcript, and the number of `execute_upgrade` invocations issued. -/
structure RunOut where
  ret : Res
  msgs : List Msg
  applies : Nat
  deriving DecidableEq, Repr

/-- What the external API answers during one engine step: the
`get_element_sw_version` read at the top of the frame, the software-state
read and write outcome inside `execute_upgrade`, the version reads taken
by `wait_for_upgade`, and the `get_element_sw_version` read at the bottom
of the frame. -/
structure StepOracle where
  curVer : Option String
  swRead : Option Rec
  putOk : Bool
  waitReads : Nat → Option String
  finalVer : Option String

/-- The direction-specific data distinguishing `staged_upgrade` from
`staged_downgrade`. -/
structure DirCfg where
  table : List ((String → Bool) × String)
  pickDefault : List String → Except String String
  atMaxAlways : Bool

/-- `staged_upgrade`'s configuration: upgrade table, `max(...)` default,
unconditional at-max print. -/
def upgradeDir : DirCfg := ⟨upgrade_path_regex, pyMaxKey, true⟩

/-- `staged_downgrade`'s configuration: downgrade table, `min(...)`
default, at-max print only when `step == 1`. -/
def downgradeDir : DirCfg := ⟨downgrade_path_regex, pyMinKey, false⟩

/-- Line 203-204 / 244-245: `if not max_version: max_version = max(...)`
(resp. `min`). -/
def resolveMaxV (dir : DirCfg) (dict : List (String × String))
    (maxVersion : Option String) : Except String String :=
  if pyTruthyOS maxVersion then .ok (maxVersion.getD "")
  else dir.pickDefault (dict.map (·.1))

/-- Line 207 / 248: `current_version == max_version or current_version ==
exact_max_version` (the right comparand may itself be `None`). -/
def atMaxCheck (cur : Option String) (maxV : String)
    (exactMax : Option String) : Bool :=
  cur == some maxV || cur == exactMax

/-- One frame of `staged_upgrade`/`staged_downgrade`; `r` is
`max_steps - step` for the incoming `step`, and the step oracle for the
frame is `o (step + 1)`. -/
def stagedGo (dir : DirCfg) (o : Nat → StepOracle)
    (dict : List (String × String)) (maxWait : Int)
    (maxVersion : Option String) (step : Nat) : Nat → RunOut
  | 0 => ⟨.retF, [.maxStepsMsg], 0⟩
  | r + 1 =>
    let s := step + 1
    let cur := (o s).curVer
    match resolveMaxV dir dict maxVersion with
    | .error e => ⟨.exc e, [], 0⟩
    | .ok maxV =>
      let exactMax := get_exact_major_minor_micro maxV dict
      if atMaxCheck cur maxV exactMax then
        ⟨.retF, if dir.atMaxAlways || s == 1 then [.atMaxMsg] else [], 0⟩
      else
        let exactVersion := lastContaining maxV dict
        if !pyTruthyOS exactVersion then ⟨.retF, [.exactNotFoundMsg], 0⟩
        else
          match hopResolve dir.table cur dict with
          | .error e => ⟨.exc e, [], 0⟩
          | .ok (uv?, iid?) =>
            if pyTruthyOS uv? && pyTruthyOS iid? then
              let uv := uv?.getD ""
              let iid := iid?.getD ""
              let m1 := [Msg.stepMsg s cur uv exactMax]
              let ex := execute_upgrade ⟨(o s).swRead, (o s).putOk⟩ iid
              if !ex.1 then ⟨.retF, m1 ++ ex.2.2, 1⟩
              else
                let w := wait_for_upgade (o s).waitReads uv maxWait
                if !w.1 then ⟨.retF, m1 ++ ex.2.2, 1⟩
                else
                  let sub := stagedGo dir o dict maxWait (some maxV) s r
                  match sub.ret with
                  | .exc e =>
                    ⟨.exc e, m1 ++ ex.2.2 ++ sub.msgs, 1 + sub.applies⟩
                  | _ =>
                    let m2 := if s == 1 then
                        [Msg.completedMsg ((o s).finalVer)] else []
                    ⟨.retN, m1 ++ ex.2.2 ++ sub.msgs ++ m2,
                      1 + sub.applies⟩
            else ⟨.retF, [.noNextMsg], 0⟩

/-- `staged_upgrade(sdk, element_id, max_version, max_wait, max_steps,
step)` (source lines 196-234). -/
def staged_upgrade (o : Nat → StepOracle) (dict : List (String × String))
    (maxVersion : Option String) (maxWait : Int) (maxSteps : Nat)
    (step : Nat := 0) : RunOut :=
  stagedGo upgradeDir o dict maxWait maxVersion step (maxSteps - step)

/-- `staged_downgrade(sdk, element_id, max_version, max_wait, max_steps,
step)` (source lines 237-275). -/
def staged_downgrade (o : Nat → StepOracle)
    (dict : List (String × String)) (maxVersion : Option String)
    (maxWait : Int) (maxSteps : Nat) (step : Nat := 0) : RunOut :=
  stagedGo downgradeDir o dict maxWait maxVersion step (maxSteps - step)

/-! ### `is_upgrade_or_downgrade` (source lines 290-316) -/

/-- Lexicographic `<` on char lists by code point. -/
def listLtL : List Char → List Char → Bool
  | [], [] => false
  | [], _ :: _ => true
  | _ :: _, [] => false
  | a :: as_, b :: bs =>
    if a.toNat < b.toNat then true
    else if b.toNat < a.toNat then false
    else listLtL as_ bs

/-- Python string `<` (lexicographic by code point), used by the source on
the digit strings of the re-compared minor components. -/
def pyStrLt (a b : String) : Bool := listLtL a.toList b.toList

/-- `is_upgrade_or_downgrade(sdk, element_id, target_version)`: resolve
the target against the catalog, parse both versions, and compare major,
then minor — then (source comment notwithstanding) the MINOR components
again, digit-stripped and compared as strings; the micro components are
never consulted.  `ok (some "upgrade"/"downgrade")` are the string
returns, `ok none` the final `return None`, `error` an uncaught
exception (`TypeError` from `re.search`/`major_minor_micro` on `None`,
`AttributeError` on an unparsable string). -/
def is_upgrade_or_downgrade (dict : List (String × String))
    (curVer : Option String) (targetVersion : Option String) :
    Except String (Option String) := do
  let tv ←
    if pyTruthyOS targetVersion then pure (targetVersion.getD "")
    else pyMaxKey (dict.map (·.1))
  let exactTarget := get_exact_major_minor_micro tv dict
  let (tMaj, tMin, _tMic) ←
    match exactTarget with
    | none => Except.error "TypeError"
    | some et =>
      match major_minor_micro et with
      | none => Except.error "AttributeError"
      | some t => Except.ok t
  let (cMaj, cMin, _cMic) ←
    match curVer with
    | none => Except.error "TypeError"
    | some cv =>
      match major_minor_micro cv with
      | none => Except.error "AttributeError"
      | some t => Except.ok t
  if cMaj < tMaj then pure (some "upgrade")
  else if tMaj < cMaj then pure (some "downgrade")
  else if cMin < tMin then pure (some "upgrade")
  else if tMin < cMin then pure (some "downgrade")
  else
    let cMinS := toString cMin
    let tMinS := toString tMin
    if pyStrLt cMinS tMinS then pure (some "upgrade")
    else if pyStrLt tMinS cMinS then pure (some "downgrade")
    else pure none

/-! ### Spec-side comparison definitions (refinement targets)

These follow the specification's words, to be compared with the
definitions above that were translated from the source. -/

/-- Follows the spec's words for `nextHop` (spec 4.3): "returns the
specifier for the first pattern matching `currentExact`; `NoPath` if none
match". -/
def specNextHop : List ((String → Bool) × String) → String → Option String
  | [], _ => none
  | e :: rest, cur => if e.1 cur then some e.2 else specNextHop rest cur

/-- The specifier of the last matching entry of a table (the behavior the
source's break-less scan loop actually implements). -/
def lastMatch : List ((String → Bool) × String) → String → Option String
  | [], _ => none
  | e :: rest, cur =>
    match lastMatch rest cur with
    | some u => some u
    | none => if e.1 cur then some e.2 else none

/-- `cs` contains an occurrence of the `major.minor.micro` numeric
pattern: some decomposition into a prefix, three nonempty digit runs
separated by literal dots, and a suffix. -/
def hasMMMPattern (cs : List Char) : Prop :=
  ∃ pre d1 d2 d3 post,
    cs = pre ++ (d1 ++ ('.' :: (d2 ++ ('.' :: (d3 ++ post))))) ∧
    d1 ≠ [] ∧ d2 ≠ [] ∧ d3 ≠ [] ∧
    (∀ c ∈ d1, c.isDigit = true) ∧ (∀ c ∈ d2, c.isDigit = true) ∧
    (∀ c ∈ d3, c.isDigit = true)

/-- Whether a Python return value is an uncaught exception. -/
def resIsExc : Res → Bool
  | .exc _ => true
  | _ => false

/-! ### Concrete scenario data for the closed theorems -/

/-- A catalog carrying the three decorated hop images of the
`4.5.9 → 4.7.1 → 5.0.3 → 5.2.7` path. -/
def catalogA : List (String × String) :=
  [("4.7.1-b1", "11"), ("5.0.3-b2", "12"), ("5.2.7-b22", "13")]

/-- A catalog from which the first hop target `4.7.1` is absent. -/
def catalogMissingHop : List (String × String) := [("5.2.7-b22", "13")]

/-- A catalog with two keys both containing the loose specifier `5.2`. -/
def catalogAmbig : List (String × String) :=
  [("5.2.7-b22", "1"), ("5.2.9-b1", "2")]

/-- Oracle for a clean multi-hop run: the device starts at `4.5.9`,
reaches each requested hop, all API calls succeed. -/
def oracleHops : Nat → StepOracle := fun n =>
  if n == 1 then
    ⟨some "4.5.9", some [("image_id", "old")], true,
      (fun _ => some "4.7.1-b1"), some "4.7.1-b1"⟩
  else if n == 2 then
    ⟨some "4.7.1-b1", some [("image_id", "11")], true,
      (fun _ => some "5.0.3-b2"), some "5.0.3-b2"⟩
  else
    ⟨some "5.0.3-b2", some [("image_id", "12")], true,
      (fun _ => some "5.2.7-b22"), some "5.2.7-b22"⟩

/-- Oracle for a device whose version `9.9.9` matches no path-table
entry. -/
def oracleNoMatch : Nat → StepOracle :=
  fun _ => ⟨some "9.9.9", none, true, (fun _ => none), none⟩

/-- Oracle for a device already at the decorated target version. -/
def oracleAtTarget : Nat → StepOracle :=
  fun _ => ⟨some "5.2.7-b22", none, true, (fun _ => none), none⟩

/-- Oracle where the first hop succeeds and the second step's
software-state read fails. -/
def oracleStep2Fail : Nat → StepOracle := fun n =>
  if n == 1 then
    ⟨some "4.5.9", some [("image_id", "old")], true,
      (fun _ => some "4.7.1-b1"), some "4.7.1-b1"⟩
  else ⟨some "4.7.1-b1", none, true, (fun _ => none), none⟩

/-- Oracle where the change request succeeds but the device keeps
reporting its old version, so the wait times out. -/
def oracleWaitStuck : Nat → StepOracle :=
  fun _ => ⟨some "4.5.9", some [("image_id", "old")], true,
    (fun _ => some "4.5.9"), some "4.5.9"⟩

/-- A two-entry table whose patterns overlap on `5.2.7-b22` — realisable
in the source's dict form as
`{"5\.2\..*": "5.4.3", "5\.2\.7.*": "9.9.9"}`. -/
def tableOverlap : List ((String → Bool) × String) :=
  [ (fun s => startsWithL "5.2." s, "5.4.3"),
    (fun s => startsWithL "5.2.7" s, "9.9.9") ]

/-- A catalog resolving both targets of `tableOverlap`. -/
def catalogOverlap : List (String × String) :=
  [("5.4.3-b5", "21"), ("9.9.9-b1", "22")]

/-! ## Theorems -/

/-- Claim C1 (code bug): the Direction Decider is claimed to compare
major, then minor, then micro, deciding by the first unequal component.
The source instead re-compares the MINOR components (digit-stripped, as
strings) where its own comment says "check micro version", so two
versions equal in major and minor but differing in micro come out as
`None` (AT_TARGET) instead of being decided by micro: with the catalog
`{"5.2.7-b22": …}`, current `5.2.5` and target `5.2.7` yield `ok none`
although the claim requires UPGRADE.  The spec's own examples (pure
major / pure same-version cases) do hold, as the remaining conjuncts
show. -/
theorem c1_direction_micro_ignored :
    is_upgrade_or_downgrade [("5.2.7-b22", "101")] (some "5.2.5")
      (some "5.2.7") = .ok none ∧
    is_upgrade_or_downgrade [("5.2.7-b22", "101")] (some "4.5.9")
      (some "5.2.7") = .ok (some "upgrade") ∧
    is_upgrade_or_downgrade [("5.2.7-b22", "101")] (some "5.4.1")
      (some "5.2.7") = .ok (some "downgrade") ∧
    is_upgrade_or_downgrade [("5.2.7-b22", "101")] (some "5.2.7-b22")
      (some "5.2.7") = .ok none :=
  ⟨rfl, rfl, rfl, rfl⟩

/-- Claim C2 (counterexample): on the table
`{"5\.2\..*": "5.4.3", "5\.2\.7.*": "9.9.9"}` both entries match the
current version `5.2.7-b22`; the scan returns the LAST matching entry's
specifier `9.9.9`, not the first entry's `5.4.3` as the claim states, and
the engine's full scan loop accordingly resolves the later entry's
target against the catalog. -/
theorem c2_first_entry_refuted :
    nextHop tableOverlap "5.2.7-b22" = some "9.9.9" ∧
    specNextHop tableOverlap "5.2.7-b22" = some "5.4.3" ∧
    nextHop tableOverlap "5.2.7-b22" ≠ specNextHop tableOverlap "5.2.7-b22" ∧
    hopResolve tableOverlap (some "5.2.7-b22") catalogOverlap =
      .ok (some "9.9.9-b1", some "22") :=
  ⟨rfl, rfl, by decide, rfl⟩

/-- The break-less scan with accumulator equals "first match of the
reversed table", i.e. the last matching entry. -/
theorem nextHopScan_lastMatch (cur : String) :
    ∀ (tbl : List ((String → Bool) × String)) (acc : Option String),
      nextHopScan tbl cur acc = (lastMatch tbl cur).elim acc some
  | [], _ => rfl
  | e :: rest, acc => by
    simp only [nextHopScan, lastMatch]
    rw [nextHopScan_lastMatch cur rest]
    cases h : lastMatch rest cur <;> by_cases hp : e.1 cur <;> simp [hp]

/-- Claim C2 (amended): for every path table and current version, the
scan in `staged_upgrade`/`staged_downgrade` returns the specifier of the
LAST entry, in table order, whose pattern matches — the loop has no
break, so a later match overwrites an earlier one — and no hop (`none`)
when no entry matches (e.g. `9.9.9` matches nothing in the overlap
table). -/
theorem c2_last_entry_wins :
    (∀ tbl cur, nextHop tbl cur = lastMatch tbl cur) ∧
    nextHop tableOverlap "9.9.9" = none := by
  refine ⟨fun tbl cur => ?_, rfl⟩
  have h := nextHopScan_lastMatch cur tbl none
  cases ho : lastMatch tbl cur <;> simp [nextHop, ho] at h ⊢ <;> exact h

/-- Claim C3 (code bug): with the device at `4.5.9` the upgrade table
selects hop specifier `4.7.1`, which is absent from the catalog
`{"5.2.7-b22": …}`; `get_exact_major_minor_micro` returns `None` and the
immediate `image_dict[None]` subscript raises an uncaught `KeyError`
instead of the claimed reported STEP_FAILED.  The companion conjunct
shows the claim's other half is honoured: when NO entry matches, the
step does fail gracefully (`False` return, "no next hop" print). -/
theorem c3_unresolvable_hop_uncaught :
    (staged_upgrade oracleHops catalogMissingHop (some "5.2.7") 240 5).ret =
      Res.exc "KeyError" ∧
    staged_upgrade oracleNoMatch catalogA (some "5.2.7") 240 5 =
      ⟨.retF, [.noNextMsg], 0⟩ :=
  ⟨rfl, rfl⟩

/-- Claim C5 (counterexample): a LIMIT_REACHED run (`max_steps = 0`) and
a STEP_FAILED run (no path entry matches `9.9.9`) are distinct terminal
outcomes — their transcripts differ — yet the value returned to the
caller is the identical Python `False` in both, so the return value is
not a summary determining the outcome. -/
theorem c5_outcomes_share_return :
    (staged_upgrade oracleHops catalogA (some "5.2.7") 240 0).ret =
      (staged_upgrade oracleNoMatch catalogA (some "5.2.7") 240 5).ret ∧
    (staged_upgrade oracleHops catalogA (some "5.2.7") 240 0).msgs ≠
      (staged_upgrade oracleNoMatch catalogA (some "5.2.7") 240 5).msgs :=
  ⟨rfl, by decide⟩

/-- Claim C5 (amended): the summary (status, step number, final version)
is only printed, never returned: LIMIT_REACHED, STEP_FAILED ("no next
hop") and the already-at-target completion all return Python `False`,
while a run whose first hop succeeds returns `None`; the outcomes are
distinguishable in the console transcript, not in the return value. -/
theorem c5_return_not_summary :
    staged_upgrade oracleHops catalogA (some "5.2.7") 240 0 =
      ⟨.retF, [.maxStepsMsg], 0⟩ ∧
    staged_upgrade oracleNoMatch catalogA (some "5.2.7") 240 5 =
      ⟨.retF, [.noNextMsg], 0⟩ ∧
    staged_upgrade oracleAtTarget catalogA (some "5.2.7") 240 5 =
      ⟨.retF, [.atMaxMsg], 0⟩ ∧
    (staged_upgrade oracleHops catalogA (some "5.2.7") 240 5).ret =
      .retN :=
  ⟨rfl, rfl, rfl, rfl⟩

/-- Claim C6 (counterexample): with catalog keys `5.2.7-b22, 5.2.9-b1`
(in that iteration order) and loose specifier `5.2`,
`get_exact_major_minor_micro` returns the FIRST containing key but the
engine's inline resolution loop keeps the LAST containing key, so the
claim that both return the first containing key is false. -/
theorem c6_inline_not_first :
    lastContaining "5.2" catalogAmbig = some "5.2.9-b1" ∧
    get_exact_major_minor_micro "5.2" catalogAmbig = some "5.2.7-b22" ∧
    lastContaining "5.2" catalogAmbig ≠
      get_exact_major_minor_micro "5.2" catalogAmbig :=
  ⟨rfl, rfl, by decide⟩

/-- The engine issues at most `r` `execute_upgrade` invocations when
entered with `max_steps - step = r`: every frame issues at most one and
recurses with the difference decreased by one. -/
theorem stagedGo_applies_le (dir : DirCfg) (o : Nat → StepOracle)
    (dict : List (String × String)) (w : Int) :
    ∀ (r : Nat) (maxV : Option String) (step : Nat),
      (stagedGo dir o dict w maxV step r).applies ≤ r := by
  intro r
  induction r with
  | zero => intro maxV step; simp [stagedGo]
  | succ r ih =>
    intro maxV step
    simp only [stagedGo]
    split
    · simp
    · next mv _ =>
      split
      · simp
      · split
        · simp
        · split
          · simp
          · split
            · split
              · simp
              · split
                · simp
                · split
                  · have := ih (some mv) (step + 1)
                    simp only [RunOut.applies] at this ⊢
                    omega
                  · have := ih (some mv) (step + 1)
                    simp only [RunOut.applies] at this ⊢
                    omega
            · simp

/-- Claim C4 (confirmed): a run of the staged engine with step budget
`max_steps = N` issues at most `N` firmware change requests
(`execute_upgrade` invocations): the incremented step counter exceeding
`max_steps` aborts the frame before any change is issued.  Concretely, a
`max_steps = 2` run over the 3-hop path `4.5.9 → 4.7.1 → 5.0.3 → 5.2.7`
issues exactly 2 change requests and stops with the LIMIT_REACHED
print. -/
theorem c4_step_budget :
    (∀ (o : Nat → StepOracle) (dict : List (String × String))
        (maxV : Option String) (w : Int) (ms : Nat),
      (staged_upgrade o dict maxV w ms).applies ≤ ms) ∧
    (∀ (o : Nat → StepOracle) (dict : List (String × String))
        (maxV : Option String) (w : Int) (ms : Nat),
      (staged_downgrade o dict maxV w ms).applies ≤ ms) ∧
    (staged_upgrade oracleHops catalogA (some "5.2.7") 240 2).applies = 2 ∧
    Msg.maxStepsMsg ∈
      (staged_upgrade oracleHops catalogA (some "5.2.7") 240 2).msgs := by
  refine ⟨fun o dict maxV w ms => ?_, fun o dict maxV w ms => ?_,
    rfl, by decide⟩
  · exact stagedGo_applies_le upgradeDir o dict w ms maxV 0
  · exact stagedGo_applies_le downgradeDir o dict w ms maxV 0

/-- The polling loop reports `true` exactly when one of the reads it is
allowed to take (indices `i` to `i + p`) returns the target. -/
theorem waitGo_true_iff (reads : Nat → Option String) (tgt : String) :
    ∀ (p i : Nat) (w : Int),
      (waitGo reads tgt i w p).1 = true ↔
        ∃ d, d ≤ p ∧ reads (i + d) = some tgt := by
  intro p
  induction p with
  | zero =>
    intro i w
    simp only [waitGo]
    constructor
    · intro h
      exact ⟨0, Nat.le_refl 0, by simpa using h⟩
    · rintro ⟨d, hd, hr⟩
      have h0 : d = 0 := Nat.le_zero.mp hd
      subst h0
      simpa using hr
  | succ p ih =>
    intro i w
    simp only [waitGo]
    by_cases h : reads i = some tgt
    · rw [if_pos (by simpa using h)]
      constructor
      · intro _
        exact ⟨0, Nat.zero_le _, by simpa using h⟩
      · intro _
        rfl
    · rw [if_neg (by simpa using h)]
      rw [ih (i + 1) (w - 10)]
      constructor
      · rintro ⟨d, hd, hr⟩
        refine ⟨d + 1, by omega, ?_⟩
        rw [show i + (d + 1) = i + 1 + d by omega]
        exact hr
      · rintro ⟨d, hd, hr⟩
        cases d with
        | zero => exact absurd (by simpa using hr) h
        | succ d =>
          refine ⟨d, by omega, ?_⟩
          rw [show i + 1 + d = i + (d + 1) by omega]
          exact hr

/-- Claim C7 (confirmed): `wait_for_upgade` re-reads the device version
on a fixed 10-second cadence — for budget `w` it takes reads `0..kMax w`
where `kMax w` is the least number of 10-second sleeps whose total meets
or exceeds the budget — returns `true` as soon as a read is exactly
string-equal to the expected version, and otherwise returns the value
`false` (a result, not an exception).  Loose/substring matching is not
used: a device stuck reporting `5.2.7-b22` never satisfies target
`5.2.7`.  The final conjunct runs the engine against a device that never
leaves `4.5.9`: the step issues exactly one change request, the timed-out
wait makes the frame return `False`, and no second `execute_upgrade` is
attempted for the hop. -/
theorem c7_wait_polling :
    (∀ (reads : Nat → Option String) (tgt : String) (w : Int),
      ((wait_for_upgade reads tgt w).1 = true ↔
        ∃ d, d ≤ kMax w ∧ reads d = some tgt)) ∧
    (∀ w : Int, 0 ≤ w →
      (w ≤ 10 * (kMax w : Int) ∧ ∀ n : Nat, w ≤ 10 * (n : Int) → kMax w ≤ n)) ∧
    (wait_for_upgade (fun _ => some "5.2.7-b22") "5.2.7" 240).1 = false ∧
    staged_upgrade oracleWaitStuck catalogA (some "5.2.7") 240 5 =
      ⟨.retF, [.stepMsg 1 (some "4.5.9") "4.7.1-b1" (some "5.2.7-b22"),
        .execFwMsg], 1⟩ := by
  refine ⟨fun reads tgt w => ?_, fun w hw => ⟨?_, fun n hn => ?_⟩, rfl, rfl⟩
  · simpa using waitGo_true_iff reads tgt (kMax w) 0 w
  · simp only [kMax]
    omega
  · simp only [kMax]
    omega

/-- Witness for C7 at budget 240: the poll bound of 24 sleeps covers the
240-second budget. -/
theorem c7_wait_polling_witness : (240 : Int) ≤ 10 * (kMax 240 : Int) :=
  (c7_wait_polling.2.1 240 (by decide)).1

/-- After `d['image_id'] = v`, reading `image_id` yields `v`. -/
theorem lookupD_setField_same : ∀ (r : Rec) (k v : String),
    lookupD (setField r k v) k = some v := by
  intro r
  induction r with
  | nil => intro k v; simp [setField, lookupD]
  | cons kv t ih =>
    intro k v
    simp only [setField]
    by_cases h : kv.1 = k
    · rw [if_pos (by simpa using h)]
      simp [lookupD]
    · rw [if_neg (by simpa using h)]
      have hb : (kv.1 == k) = false := by simpa using h
      simpa [lookupD, List.find?_cons, hb] using ih k v

/-- After `d['image_id'] = v`, every other field reads unchanged. -/
theorem lookupD_setField_other : ∀ (r : Rec) (k v k' : String), k' ≠ k →
    lookupD (setField r k v) k' = lookupD r k' := by
  intro r
  induction r with
  | nil =>
    intro k v k' hk
    have hb : (k == k') = false := by simpa using fun h => hk h.symm
    simp [setField, lookupD, List.find?_cons, hb]
  | cons kv t ih =>
    intro k v k' hk
    simp only [setField]
    by_cases h : kv.1 = k
    · rw [if_pos (by simpa using h)]
      have hb : (k == k') = false := by simpa using fun hh => hk hh.symm
      have hb2 : (kv.1 == k') = false := by
        simp only [h]
        exact hb
      simp [lookupD, List.find?_cons, hb, hb2]
    · rw [if_neg (by simpa using h)]
      by_cases h2 : kv.1 = k'
      · simp [lookupD, List.find?_cons, h2]
      · have hb2 : (kv.1 == k') = false := by simpa using h2
        simpa [lookupD, List.find?_cons, hb2] using ih k v k' hk

/-- Claim C8 (confirmed): one `execute_upgrade` invocation reads the
software-state record, writes back exactly one record that differs from
the read one only in the `image_id` field (reading any other field of
the written record gives the value the read record had), returns `False`
precisely when the read fails (in which case nothing is written) or the
write fails, and attempts the write at most once. -/
theorem c8_apply_change_frame (r : Rec) (p : Bool) (imgId : String) :
    (execute_upgrade ⟨some r, p⟩ imgId).1 = p ∧
    (execute_upgrade ⟨some r, p⟩ imgId).2.1 =
      [setField r "image_id" imgId] ∧
    (execute_upgrade ⟨none, p⟩ imgId).1 = false ∧
    (execute_upgrade ⟨none, p⟩ imgId).2.1 = [] ∧
    lookupD (setField r "image_id" imgId) "image_id" = some imgId ∧
    (∀ k, k ≠ "image_id" →
      lookupD (setField r "image_id" imgId) k = lookupD r k) := by
  refine ⟨?_, ?_, rfl, rfl, lookupD_setField_same r _ _,
    fun k hk => lookupD_setField_other r _ _ k hk⟩
  · cases p <;> rfl
  · cases p <;> rfl

/-- Witness for C8 on a concrete two-field record: the field `x` is left
untouched by the image change. -/
theorem c8_apply_change_frame_witness :
    lookupD (setField [("image_id", "old"), ("x", "y")] "image_id" "42")
      "x" = some "y" :=
  (c8_apply_change_frame [("image_id", "old"), ("x", "y")] true
    "42").2.2.2.2.2 "x" (by decide)

/-- `digitsOf` splits its input: run ++ rest = input. -/
theorem digitsOf_decomp : ∀ cs : List Char,
    (digitsOf cs).1 ++ (digitsOf cs).2 = cs := by
  intro cs
  induction cs with
  | nil => rfl
  | cons c t ih =>
    simp only [digitsOf]
    by_cases h : c.isDigit
    · simpa [h] using ih
    · simp [h]

/-- Every character of the leading run is a digit. -/
theorem digitsOf_all_digit : ∀ (cs : List Char) (c : Char),
    c ∈ (digitsOf cs).1 → c.isDigit = true := by
  intro cs
  induction cs with
  | nil => intro c hc; simp [digitsOf] at hc
  | cons a t ih =>
    intro c hc
    by_cases h : a.isDigit
    · simp only [digitsOf, if_pos h] at hc
      rcases List.mem_cons.mp hc with h1 | h2
      · exact h1 ▸ h
      · exact ih c h2
    · simp [digitsOf, h] at hc

/-- A digit run followed by a literal dot is what `digitsOf` carves off. -/
theorem digitsOf_append_dot : ∀ (d r : List Char),
    (∀ c ∈ d, c.isDigit = true) →
    digitsOf (d ++ '.' :: r) = (d, '.' :: r) := by
  intro d
  induction d with
  | nil => intro r _; simp [digitsOf]
  | cons c d' ih =>
    intro r hall
    have hc : c.isDigit = true := hall c (List.mem_cons_self c d')
    have ih2 := ih r (fun x hx => hall x (List.mem_cons_of_mem c hx))
    simp [digitsOf, hc, ih2]

/-- A successful anchored match decomposes its input into three nonempty
digit runs separated by dots, followed by arbitrary characters. -/
theorem matchAt_pattern (cs : List Char) (t : Nat × Nat × Nat)
    (h : matchAt cs = some t) :
    ∃ d1 d2 d3 post,
      cs = d1 ++ ('.' :: (d2 ++ ('.' :: (d3 ++ post)))) ∧
      d1 ≠ [] ∧ d2 ≠ [] ∧ d3 ≠ [] ∧
      (∀ c ∈ d1, c.isDigit = true) ∧ (∀ c ∈ d2, c.isDigit = true) ∧
      (∀ c ∈ d3, c.isDigit = true) := by
  unfold matchAt at h
  split at h
  next d1 r1 heq1 =>
    split at h
    · exact absurd h (by simp)
    · next h1 =>
      split at h
      · next r2 =>
        split at h
        next d2 r3 heq2 =>
          split at h
          · exact absurd h (by simp)
          · next h2 =>
            split at h
            · next r4 =>
              split at h
              next d3 r5 heq3 =>
                split at h
                · exact absurd h (by simp)
                · next h3 =>
                  refine ⟨d1, d2, d3, r5, ?_, ?_, ?_, ?_, ?_, ?_, ?_⟩
                  · have e1 := digitsOf_decomp cs
                    have e2 := digitsOf_decomp r2
                    have e3 := digitsOf_decomp r4
                    rw [heq1] at e1
                    rw [heq2] at e2
                    rw [heq3] at e3
                    simp only at e1 e2 e3
                    rw [← e1, ← e2, ← e3]
                  · simpa using h1
                  · simpa using h2
                  · simpa using h3
                  · intro c hc
                    exact digitsOf_all_digit cs c (by rw [heq1]; exact hc)
                  · intro c hc
                    exact digitsOf_all_digit r2 c (by rw [heq2]; exact hc)
                  · intro c hc
                    exact digitsOf_all_digit r4 c (by rw [heq3]; exact hc)
            · exact absurd h (by simp)
      · exact absurd h (by simp)

/-- A successful search anywhere yields the decomposition predicate. -/
theorem searchMMM_pattern : ∀ (cs : List Char) (t : Nat × Nat × Nat),
    searchMMM cs = some t → hasMMMPattern cs := by
  intro cs
  induction cs with
  | nil => intro t h; exact absurd h (by simp [searchMMM])
  | cons c rest ih =>
    intro t h
    simp only [searchMMM] at h
    split at h
    · next t' heq =>
      obtain ⟨d1, d2, d3, post, hcs, h1, h2, h3, a1, a2, a3⟩ :=
        matchAt_pattern (c :: rest) t' heq
      exact ⟨[], d1, d2, d3, post, by simpa using hcs, h1, h2, h3, a1, a2, a3⟩
    · obtain ⟨pre, d1, d2, d3, post, hcs, h1, h2, h3, a1, a2, a3⟩ := ih t h
      exact ⟨c :: pre, d1, d2, d3, post, by simp [hcs], h1, h2, h3, a1, a2, a3⟩

/-- The anchored match succeeds on any input starting with three nonempty
digit runs separated by dots. -/
theorem matchAt_pos (d1 d2 d3 post : List Char)
    (h1 : d1 ≠ []) (h2 : d2 ≠ []) (h3 : d3 ≠ [])
    (a1 : ∀ c ∈ d1, c.isDigit = true) (a2 : ∀ c ∈ d2, c.isDigit = true)
    (a3 : ∀ c ∈ d3, c.isDigit = true) :
    matchAt (d1 ++ ('.' :: (d2 ++ ('.' :: (d3 ++ post))))) ≠ none := by
  unfold matchAt
  rw [digitsOf_append_dot d1 _ a1]
  simp only
  rw [if_neg (by simpa using h1)]
  rw [digitsOf_append_dot d2 _ a2]
  simp only
  rw [if_neg (by simpa using h2)]
  obtain ⟨c, d3', rfl⟩ : ∃ c d3', d3 = c :: d3' := by
    cases d3 with
    | nil => exact absurd rfl h3
    | cons c d3' => exact ⟨c, d3', rfl⟩
  have hc : c.isDigit = true := a3 c (List.mem_cons_self c d3')
  simp [digitsOf, hc]

/-- The search cannot fail on an input containing the pattern. -/
theorem searchMMM_ne_none : ∀ cs : List Char,
    hasMMMPattern cs → searchMMM cs ≠ none := by
  have aux : ∀ (pre rest : List Char), matchAt rest ≠ none →
      searchMMM (pre ++ rest) ≠ none := by
    intro pre
    induction pre with
    | nil =>
      intro rest hm
      cases rest with
      | nil => exact absurd (by unfold matchAt; simp [digitsOf]) hm
      | cons c t =>
        simp only [List.nil_append, searchMMM]
        cases hm2 : matchAt (c :: t) with
        | none => exact absurd hm2 hm
        | some t' => simp
    | cons c pre' ih =>
      intro rest hm
      simp only [List.cons_append, searchMMM]
      cases hm2 : matchAt (c :: (pre' ++ rest)) with
      | none => exact ih rest hm
      | some t' => simp
  intro cs ⟨pre, d1, d2, d3, post, hcs, h1, h2, h3, a1, a2, a3⟩
  rw [hcs]
  exact aux pre _ (matchAt_pos d1 d2 d3 post h1 h2 h3 a1 a2 a3)

/-- Claim C9 (confirmed): `major_minor_micro` fails (the Python call
raises, modelled as `none`) exactly when its input contains no
`major.minor.micro` numeric pattern — no decomposition into three
nonempty digit runs separated by literal dots anywhere in the string —
and on success returns the integer components of the first occurrence,
ignoring surrounding text: `5.2.7-b22 ↦ (5,2,7)` and, with two
occurrences, the first one wins. -/
theorem c9_parse_failure_iff :
    (∀ s : String, major_minor_micro s = none ↔ ¬ hasMMMPattern s.toList) ∧
    major_minor_micro "5.2.7-b22" = some (5, 2, 7) ∧
    major_minor_micro "v1.2.3 then 9.9.9" = some (1, 2, 3) ∧
    major_minor_micro "abc" = none := by
  refine ⟨fun s => ?_, rfl, rfl, rfl⟩
  unfold major_minor_micro
  constructor
  · intro h hp
    exact searchMMM_ne_none _ hp h
  · intro h
    cases he : searchMMM s.toList with
    | none => rfl
    | some t => exact absurd (searchMMM_pattern _ t he) h

/-- Lexicographic tuple order is irreflexive. -/
theorem tupLt_self (x : Nat × Nat × Nat) : tupLt x x = false := by
  obtain ⟨x1, x2, x3⟩ := x
  simp [tupLt]

/-- `¬(x < y)` and `¬(y < z)` give `¬(x < z)` for the tuple order. -/
theorem tupLt_ff_trans (x y z : Nat × Nat × Nat)
    (h1 : tupLt x y = false) (h2 : tupLt y z = false) :
    tupLt x z = false := by
  obtain ⟨x1, x2, x3⟩ := x
  obtain ⟨y1, y2, y3⟩ := y
  obtain ⟨z1, z2, z3⟩ := z
  simp [tupLt] at h1 h2 ⊢
  omega

/-- `x < y` and `¬(z < y)` give `¬(z < x)` for the tuple order. -/
theorem tupLt_tf (x y z : Nat × Nat × Nat)
    (h1 : tupLt x y = true) (h2 : tupLt z y = false) :
    tupLt z x = false := by
  obtain ⟨x1, x2, x3⟩ := x
  obtain ⟨y1, y2, y3⟩ := y
  obtain ⟨z1, z2, z3⟩ := z
  simp [tupLt] at h1 h2 ⊢
  omega

/-- `y < x` and `¬(y < z)` give `¬(x < z)` for the tuple order. -/
theorem tupLt_tf2 (x y z : Nat × Nat × Nat)
    (h1 : tupLt y x = true) (h2 : tupLt y z = false) :
    tupLt x z = false := by
  obtain ⟨x1, x2, x3⟩ := x
  obtain ⟨y1, y2, y3⟩ := y
  obtain ⟨z1, z2, z3⟩ := z
  simp [tupLt] at h1 h2 ⊢
  omega

/-- The best-so-far fold shared by `pyMaxKey`/`pyMinKey` (with `cmp`
instantiated to the tuple order or its flip): if it succeeds, the result
carries its own parsed key, comes from the initial accumulator or the
scanned list, and is never improved upon by the accumulator or any
scanned element. -/
theorem foldBest_spec (cmp : (Nat × Nat × Nat) → (Nat × Nat × Nat) → Bool)
    (H2 : ∀ x y z, cmp x y = false → cmp y z = false → cmp x z = false)
    (H3 : ∀ x y z, cmp x y = true → cmp z y = false → cmp z x = false)
    (Hi : ∀ x, cmp x x = false) :
    ∀ (rest : List String) (acc b : String × (Nat × Nat × Nat)),
      rest.foldlM (fun acc k2 => do
        let k2t ← mmmKey k2
        pure (if cmp acc.2 k2t then (k2, k2t) else acc)) acc =
          Except.ok b →
      mmmKey acc.1 = .ok acc.2 →
      mmmKey b.1 = .ok b.2 ∧ (b.1 = acc.1 ∨ b.1 ∈ rest) ∧
      cmp b.2 acc.2 = false ∧
      (∀ k ∈ rest, ∀ t, mmmKey k = .ok t → cmp b.2 t = false) := by
  intro rest
  induction rest with
  | nil =>
    intro acc b hf hacc
    simp only [List.foldlM] at hf
    cases hf
    exact ⟨hacc, Or.inl rfl, Hi _, by simp⟩
  | cons k2 rest' ih =>
    intro acc b hf hacc
    simp only [List.foldlM] at hf
    cases hk : mmmKey k2 with
    | error e =>
      rw [hk] at hf
      exact Except.noConfusion (show (Except.error e :
        Except String (String × (Nat × Nat × Nat))) = Except.ok b from hf)
    | ok k2t =>
      rw [hk] at hf
      have hf2 : rest'.foldlM (fun acc k2 => do
          let k2t ← mmmKey k2
          pure (if cmp acc.2 k2t then (k2, k2t) else acc))
          (if cmp acc.2 k2t then (k2, k2t) else acc) = Except.ok b := hf
      by_cases hcmp : cmp acc.2 k2t = true
      · rw [if_pos hcmp] at hf2
        obtain ⟨hb1, hb2, hb3, hb4⟩ := ih (k2, k2t) b hf2 hk
        refine ⟨hb1, ?_, H3 acc.2 k2t b.2 hcmp hb3, ?_⟩
        · rcases hb2 with h | h
          · exact Or.inr (by simp [h])
          · exact Or.inr (List.mem_cons_of_mem _ h)
        · intro k hkm t ht
          rcases List.mem_cons.mp hkm with rfl | hmem
          · rw [hk] at ht
            injection ht with ht
            exact ht ▸ hb3
          · exact hb4 k hmem t ht
      · have hcmp2 : cmp acc.2 k2t = false := by simpa using hcmp
        rw [if_neg (by simp [hcmp2])] at hf2
        obtain ⟨hb1, hb2, hb3, hb4⟩ := ih acc b hf2 hacc
        refine ⟨hb1, ?_, hb3, ?_⟩
        · rcases hb2 with h | h
          · exact Or.inl h
          · exact Or.inr (List.mem_cons_of_mem _ h)
        · intro k hkm t ht
          rcases List.mem_cons.mp hkm with rfl | hmem
          · rw [hk] at ht
            injection ht with ht
            exact ht ▸ H2 b.2 acc.2 k2t hb3 hcmp2
          · exact hb4 k hmem t ht

/-- `max(keys, key=major_minor_micro)` returns a member no key of which
parses strictly above it. -/
theorem pyMaxKey_spec (keys : List String) (k : String)
    (h : pyMaxKey keys = .ok k) :
    k ∈ keys ∧ ∀ k2 ∈ keys, ∀ t2 t, mmmKey k2 = .ok t2 →
      mmmKey k = .ok t → tupLt t t2 = false := by
  cases keys with
  | nil => exact absurd h (by simp [pyMaxKey])
  | cons k0 rest =>
    simp only [pyMaxKey] at h
    cases hk0 : mmmKey k0 with
    | error e =>
      rw [hk0] at h
      exact absurd (show (Except.error e : Except String String) =
        Except.ok k from h) (by simp)
    | ok kt =>
      rw [hk0] at h
      have h2 : (rest.foldlM (fun acc k2 => do
          let k2t ← mmmKey k2
          pure (if tupLt acc.2 k2t then (k2, k2t) else acc)) (k0, kt) >>=
            fun best => pure best.1 : Except String String) = .ok k := h
      cases hf : rest.foldlM (fun acc k2 => do
          let k2t ← mmmKey k2
          pure (if tupLt acc.2 k2t then (k2, k2t) else acc)) (k0, kt) with
      | error e =>
        rw [hf] at h2
        exact absurd (show (Except.error e : Except String String) =
          Except.ok k from h2) (by simp)
      | ok best =>
        rw [hf] at h2
        have hkk : best.1 = k := by
          injection (show (Except.ok best.1 : Except String String) =
            .ok k from h2) with hh
        obtain ⟨hb1, hb2, hb3, hb4⟩ :=
          foldBest_spec tupLt
            (fun x y z ha hb => tupLt_ff_trans x y z ha hb)
            (fun x y z ha hb => tupLt_tf x y z ha hb)
            (fun x => tupLt_self x)
            rest (k0, kt) best hf hk0
        subst hkk
        refine ⟨?_, ?_⟩
        · rcases hb2 with hh | hh
          · exact hh ▸ List.mem_cons_self _ _
          · exact List.mem_cons_of_mem _ hh
        · intro k2 hk2 t2 t ht2 ht
          have htb : t = best.2 := by
            rw [hb1] at ht
            injection ht with hh
            exact hh.symm
          subst htb
          rcases List.mem_cons.mp hk2 with rfl | hmem
          · rw [hk0] at ht2
            injection ht2 with hh
            exact hh ▸ hb3
          · exact hb4 k2 hmem t2 ht2

/-- `min(keys, key=major_minor_micro)` returns a member no key of which
parses strictly below it. -/
theorem pyMinKey_spec (keys : List String) (k : String)
    (h : pyMinKey keys = .ok k) :
    k ∈ keys ∧ ∀ k2 ∈ keys, ∀ t2 t, mmmKey k2 = .ok t2 →
      mmmKey k = .ok t → tupLt t2 t = false := by
  cases keys with
  | nil => exact absurd h (by simp [pyMinKey])
  | cons k0 rest =>
    simp only [pyMinKey] at h
    cases hk0 : mmmKey k0 with
    | error e =>
      rw [hk0] at h
      exact absurd (show (Except.error e : Except String String) =
        Except.ok k from h) (by simp)
    | ok kt =>
      rw [hk0] at h
      have h2 : (rest.foldlM (fun acc k2 => do
          let k2t ← mmmKey k2
          pure (if tupLt k2t acc.2 then (k2, k2t) else acc)) (k0, kt) >>=
            fun best => pure best.1 : Except String String) = .ok k := h
      cases hf : rest.foldlM (fun acc k2 => do
          let k2t ← mmmKey k2
          pure (if tupLt k2t acc.2 then (k2, k2t) else acc)) (k0, kt) with
      | error e =>
        rw [hf] at h2
        exact absurd (show (Except.error e : Except String String) =
          Except.ok k from h2) (by simp)
      | ok best =>
        rw [hf] at h2
        have hkk : best.1 = k := by
          injection (show (Except.ok best.1 : Except String String) =
            .ok k from h2) with hh
        obtain ⟨hb1, hb2, hb3, hb4⟩ :=
          foldBest_spec (fun a b => tupLt b a)
            (fun x y z ha hb => tupLt_ff_trans z y x hb ha)
            (fun x y z ha hb => tupLt_tf2 x y z ha hb)
            (fun x => tupLt_self x)
            rest (k0, kt) best hf hk0
        subst hkk
        refine ⟨?_, ?_⟩
        · rcases hb2 with hh | hh
          · exact hh ▸ List.mem_cons_self _ _
          · exact List.mem_cons_of_mem _ hh
        · intro k2 hk2 t2 t ht2 ht
          have htb : t = best.2 := by
            rw [hb1] at ht
            injection ht with hh
            exact hh.symm
          subst htb
          rcases List.mem_cons.mp hk2 with rfl | hmem
          · rw [hk0] at ht2
            injection ht2 with hh
            exact hh ▸ hb3
          · exact hb4 k2 hmem t2 ht2

/-- `get_exact_major_minor_micro` is first-containing-key lookup. -/
theorem get_exact_eq_find (v : String) :
    ∀ d : List (String × String),
      get_exact_major_minor_micro v d =
        (d.find? (fun kv => strIn v kv.1)).map (·.1) := by
  intro d
  induction d with
  | nil => rfl
  | cons kv t ih =>
    simp only [get_exact_major_minor_micro]
    cases h : strIn v kv.1 <;> simp [List.find?_cons, h, ih]

/-- The inline scan with accumulator keeps the last containing key: it
equals first-containing-key lookup on the reversed catalog. -/
theorem lastContaining_aux (v : String) :
    ∀ (d : List (String × String)) (acc : Option String),
      d.foldl (fun acc kv => if strIn v kv.1 then some kv.1 else acc) acc =
        ((d.reverse.find? (fun kv => strIn v kv.1)).map (·.1)).elim acc
          some := by
  intro d
  induction d with
  | nil => intro acc; rfl
  | cons kv t ih =>
    intro acc
    simp only [List.foldl_cons, List.reverse_cons]
    rw [ih, List.find?_append]
    cases hfind : t.reverse.find? (fun kv => strIn v kv.1) with
    | some u => simp [Option.or]
    | none => cases h : strIn v kv.1 <;> simp [Option.or, List.find?_cons, h]

/-- `lastContaining` characterised without an accumulator. -/
theorem lastContaining_eq (v : String) (d : List (String × String)) :
    lastContaining v d =
      (d.reverse.find? (fun kv => strIn v kv.1)).map (·.1) := by
  have h : lastContaining v d =
      ((d.reverse.find? (fun kv => strIn v kv.1)).map (·.1)).elim none
        some := lastContaining_aux v d none
  rw [h]
  cases (d.reverse.find? (fun kv => strIn v kv.1)).map (·.1) <;> rfl

/-- Claim C6 (amended): with an empty/absent specifier the engine's
default target is the maximum (`staged_upgrade`) or minimum
(`staged_downgrade`) catalog key under the parsed `(major, minor, micro)`
ordering, as computed by `pyMaxKey`/`pyMinKey`; with a non-empty
specifier, `get_exact_major_minor_micro` returns the FIRST catalog key
containing it as a substring (`none` when no key contains it) — e.g.
`5.2.7` against `{5.2.7-b22, 4.5.3}` gives `5.2.7-b22` — but the
engine's inline exact-target resolution loop keeps the LAST containing
key, not the first. -/
theorem c6_resolver_semantics :
    (∀ (v : String) (d : List (String × String)),
      get_exact_major_minor_micro v d =
        (d.find? (fun kv => strIn v kv.1)).map (·.1)) ∧
    (∀ (v : String) (d : List (String × String)),
      lastContaining v d =
        (d.reverse.find? (fun kv => strIn v kv.1)).map (·.1)) ∧
    (∀ (keys : List String) (k : String), pyMaxKey keys = .ok k →
      k ∈ keys ∧ ∀ k2 ∈ keys, ∀ t2 t, mmmKey k2 = .ok t2 →
        mmmKey k = .ok t → tupLt t t2 = false) ∧
    (∀ (keys : List String) (k : String), pyMinKey keys = .ok k →
      k ∈ keys ∧ ∀ k2 ∈ keys, ∀ t2 t, mmmKey k2 = .ok t2 →
        mmmKey k = .ok t → tupLt t2 t = false) ∧
    get_exact_major_minor_micro "5.2.7"
      [("5.2.7-b22", "1"), ("4.5.3", "2")] = some "5.2.7-b22" :=
  ⟨fun v d => get_exact_eq_find v d, fun v d => lastContaining_eq v d,
    fun keys k h => pyMaxKey_spec keys k h,
    fun keys k h => pyMinKey_spec keys k h, rfl⟩

/-- Witness for C6 (amended) on the catalog keys `4.5.3, 5.2.7-b22`: the
default upgrade target is the member `5.2.7-b22` and `4.5.3` does not
order above it. -/
theorem c6_resolver_semantics_witness :
    "5.2.7-b22" ∈ ["4.5.3", "5.2.7-b22"] ∧
      tupLt (5, 2, 7) (4, 5, 3) = false := by
  have h := c6_resolver_semantics.2.2.1 ["4.5.3", "5.2.7-b22"]
    "5.2.7-b22" rfl
  exact ⟨h.1, h.2 "4.5.3" (by decide) (4, 5, 3) (5, 2, 7) rfl rfl⟩

/-- Claim C10 (confirmed, implicit): when the first frame's hop is found
(`h1`-`h5`), its change request succeeds (`h6`-`h8`) and its wait reaches
the hop (`h9`), the top-level engine call returns Python `None` no matter
how the recursive call for the remaining steps ends — the recursion's
return value is discarded, so a `False` from a later step (failure or
budget exhaustion, `h11` only excludes an uncaught exception, which DOES
propagate) never reaches the caller.  The last two conjuncts record that
`staged_upgrade`/`staged_downgrade` are exactly this recursion at their
respective configurations, so the statement covers both. -/
theorem c10_later_failures_not_propagated (dir : DirCfg)
    (o : Nat → StepOracle) (dict : List (String × String)) (w : Int)
    (maxV : Option String) (ms : Nat) (mv uv iid : String) (r : Rec)
    (h1 : resolveMaxV dir dict maxV = .ok mv)
    (h2 : atMaxCheck ((o 1).curVer) mv
      (get_exact_major_minor_micro mv dict) = false)
    (h3 : pyTruthyOS (lastContaining mv dict) = true)
    (h4 : hopResolve dir.table ((o 1).curVer) dict =
      .ok (some uv, some iid))
    (h5 : uv ≠ "") (h6 : iid ≠ "")
    (h7 : (o 1).swRead = some r)
    (h8 : (o 1).putOk = true)
    (h9 : (wait_for_upgade (o 1).waitReads uv w).1 = true)
    (h10 : 1 ≤ ms)
    (h11 : resIsExc (stagedGo dir o dict w (some mv) 1 (ms - 1)).ret =
      false) :
    (stagedGo dir o dict w maxV 0 ms).ret = Res.retN ∧
    staged_upgrade o dict maxV w ms =
      stagedGo upgradeDir o dict w maxV 0 ms ∧
    staged_downgrade o dict maxV w ms =
      stagedGo downgradeDir o dict w maxV 0 ms := by
  obtain ⟨m, rfl⟩ : ∃ m, ms = m + 1 := ⟨ms - 1, by omega⟩
  rw [show m + 1 - 1 = m from by omega] at h11
  refine ⟨?_, rfl, rfl⟩
  simp only [stagedGo]
  rw [show (0 + 1) = 1 from rfl]
  rw [h1]
  simp only [h2, Bool.false_eq_true, if_false]
  rw [h3]
  simp only [Bool.not_true, Bool.false_eq_true, if_false]
  rw [h4]
  simp [pyTruthyOS, h5, h6]
  rw [h7, h8]
  simp only [execute_upgrade, Bool.not_true, Bool.false_eq_true, if_false]
  simp only [h9, Bool.not_true, Bool.false_eq_true, if_false]
  cases hr : (stagedGo dir o dict w (some mv) 1 m).ret with
  | exc e => rw [hr] at h11; simp [resIsExc] at h11
  | retF => simp
  | retN => simp

/-- Witness for C10: first hop `4.5.9 → 4.7.1-b1` succeeds, the second
step's software-state read fails (a step-2 failure), yet the top-level
call returns `None`. -/
theorem c10_later_failures_not_propagated_witness :
    (stagedGo upgradeDir oracleStep2Fail catalogA 240 (some "5.2.7") 0
      5).ret = Res.retN :=
  (c10_later_failures_not_propagated upgradeDir oracleStep2Fail catalogA
    240 (some "5.2.7") 5 "5.2.7" "4.7.1-b1" "11" [("image_id", "old")]
    rfl rfl rfl rfl (by decide) (by decide) rfl rfl rfl (by omega)
    rfl).1

end CgIonUpgrade
